import Mathlib

/-!
Shallow embedding of `src/testbed/kepler10_detection.py`, an exoplanet
transit-detection script.  Floating-point numbers are modelled as exact
rationals; the external collaborators (archive search/download, the
box-least-squares engine, the stitcher, the plotting sink) are modelled as
function parameters, since the script treats them as black boxes.
-/

namespace Kepler10

/-- Sample values are rationals; a raw downloaded sample may carry missing
(NaN) entries, modelled as `none`. -/
abbrev Sample := Option ℚ × Option ℚ

/-- A raw downloaded light-curve segment: rows of (time, flux), possibly
with missing values. -/
abbrev RawSegment := List Sample

/-- A cleaned segment: rows of (time, flux) with no missing values. -/
abbrev Segment := List (ℚ × ℚ)

/-- Median of a list of rationals, as computed by `np.median`: sort, take
the middle element when the length is odd, the mean of the two middle
elements when it is even. -/
def median (l : List ℚ) : ℚ :=
  if l.length % 2 = 1 then (l.insertionSort (· ≤ ·)).getD (l.length / 2) 0
  else ((l.insertionSort (· ≤ ·)).getD (l.length / 2 - 1) 0
      + (l.insertionSort (· ≤ ·)).getD (l.length / 2) 0) / 2

/-- The `lc.remove_nans()` step: drop every row with a missing time or
flux value. -/
def remove_nans (s : RawSegment) : Segment :=
  s.filterMap (fun r => r.1.bind (fun t => r.2.map (fun f => (t, f))))

/-- The per-segment `lc.normalize()` step: divide the segment's flux
column by its own median. -/
def normalize (s : Segment) : Segment :=
  s.map (fun r => (r.1, r.2 / median (s.map Prod.snd)))

/-- The loop body of `load_lightcurve` applied to one search-result
handle: download the segment, remove NaNs, normalize. -/
def segmentPipeline {H : Type} (download : H → RawSegment) (h : H) : Segment :=
  normalize (remove_nans (download h))

/-- The `lc_combined` list built by `load_lightcurve`: the loop
`for i in range(0, min(20, len(lc_search_results)))` downloads, cleans and
normalizes the search result at each index `i` in order. -/
def lc_combined {H : Type} [Inhabited H] (download : H → RawSegment)
    (res : List H) : List Segment :=
  (List.range (min 20 res.length)).map
    (fun i => segmentPipeline download (res.getD i default))

/-- The body of `load_lightcurve` after the archive search: build
`lc_combined`, then hand the collection to the external `stitch`
routine.  The source contains no emptiness check and no raise between the
search and the stitch call. -/
def load_lightcurve {H α : Type} [Inhabited H] (stitch : List Segment → α)
    (download : H → RawSegment) (lc_search_results : List H) : α :=
  stitch (lc_combined download lc_search_results)

/-- The `preprocess_lightcurve` function: divide the flux series by its
median; the time series is returned as given (detrending is an
unimplemented TODO in the source). -/
def preprocess_lightcurve (time flux : List ℚ) : List ℚ × List ℚ :=
  (time, flux.map (fun f => f / median flux))

/-- The grid builder `np.linspace a b n`: `n` evenly spaced values from
`a` to `b` inclusive. -/
def linspace (a b : ℚ) (n : ℕ) : List ℚ :=
  (List.range n).map (fun i : ℕ => a + (i : ℚ) * ((b - a) / ((n : ℚ) - 1)))

/-- The result surface returned by `BoxLeastSquares.power`: index-aligned
arrays of detection statistic, trial period, best-fit transit epoch and
effective duration. -/
structure BLSResult where
  power : List ℚ
  period : List ℚ
  transit_time : List ℚ
  duration : List ℚ

/-- The external box-least-squares engine, a black box mapping
(time, flux, periods, durations) to a result surface. -/
abbrev Engine := List ℚ → List ℚ → List ℚ → List ℚ → BLSResult

/-- A wellformed engine output: the surface arrays are index-aligned and
nonempty. -/
def BLSResult.WF (r : BLSResult) : Prop :=
  r.power ≠ [] ∧ r.period.length = r.power.length ∧
    r.transit_time.length = r.power.length ∧ r.duration.length = r.power.length

instance (r : BLSResult) : Decidable r.WF := by
  unfold BLSResult.WF; infer_instance

/-- The `np.argmax` of a list: index of the maximum value, first
occurrence in case of ties, `0` on the empty list. -/
def argmaxIdx : List ℚ → ℕ
  | [] => 0
  | [_] => 0
  | x :: y :: rest =>
      if x < (y :: rest).getD (argmaxIdx (y :: rest)) 0 then
        argmaxIdx (y :: rest) + 1
      else 0

/-- The `detect_transits` function: build the period and duration grids,
run the engine, and return the (period, transit_time, duration) at the
argmax of the power surface, together with the full surface. -/
def detect_transits (bls : Engine) (time flux : List ℚ) :
    ℚ × ℚ × ℚ × BLSResult :=
  let periods := linspace (1/2) 20 30000
  let durations := linspace (1/20) (3/10) 25
  let results := bls time flux periods durations
  let best_idx := argmaxIdx results.power
  (results.period.getD best_idx 0, results.transit_time.getD best_idx 0,
    results.duration.getD best_idx 0, results)

/-- The surface computed inside `detect_transits`: the engine applied to
the script's hardcoded period and duration grids. -/
def bls_surface (bls : Engine) (time flux : List ℚ) : BLSResult :=
  bls time flux (linspace (1/2) 20 30000) (linspace (1/20) (3/10) 25)

/-- A concrete engine used to instantiate theorems about
`detect_transits` on closed inputs: it returns a fixed wellformed
surface whose maximum power sits at index 1. -/
def sampleEngine : Engine := fun _ _ _ _ =>
  { power := [1, 3, 2], period := [10, 11, 12],
    transit_time := [4, 5, 6], duration := [7, 8, 9] }

/-- A concrete engine whose power surface has a tie for the maximum, at
indices 1 and 2. -/
def tieEngine : Engine := fun _ _ _ _ =>
  { power := [2, 5, 5], period := [10, 11, 12],
    transit_time := [4, 5, 6], duration := [7, 8, 9] }

/-- The nonnegative remainder `a % p` of numpy for a positive modulus:
`a - p * floor (a / p)`, which lies in `[0, p)` when `p > 0`. -/
def qmod (a p : ℚ) : ℚ := a - p * ⌊a / p⌋

/-- The phase-fold arithmetic of `validate_transits`:
`((t - t0 + 0.5*period) % period) - 0.5*period`. -/
def fold (t t0 period : ℚ) : ℚ :=
  qmod (t - t0 + (1/2) * period) period - (1/2) * period

/-- The data produced by `validate_transits` before plotting: the folded
time axis paired with the flux series it scatters against. -/
def validate_transits (time flux : List ℚ) (period t0 : ℚ) :
    List ℚ × List ℚ :=
  (time.map (fun t => fold t t0 period), flux)

/-- The dataflow of the `__main__` block.  `loaded` is the pair returned
by the loader; the call to `preprocess_lightcurve` is commented out in the
source, so the detector receives the loader's output unchanged, and the
validator receives the same series plus the detector's candidate. -/
structure MainTrace where
  detector_input : List ℚ × List ℚ
  candidate : ℚ × ℚ × ℚ × BLSResult
  validate_output : List ℚ × List ℚ

/-- The `__main__` block, parameterized by the engine and the loader's
output: detect on the loaded series, then validate with the detected
candidate. -/
def main_block (bls : Engine) (loaded : List ℚ × List ℚ) : MainTrace :=
  let time := loaded.1
  let flux := loaded.2
  let r := detect_transits bls time flux
  { detector_input := (time, flux)
    candidate := r
    validate_output := validate_transits time flux r.1 r.2.1 }

/-! ## Helper lemmas -/

theorem getD_eq_getElem {α : Type} (l : List α) (j : ℕ) (d : α)
    (h : j < l.length) : l.getD j d = l[j] := by
  simp [List.getD_eq_getElem?_getD, List.getElem?_eq_getElem h]

theorem getD_map_of_lt (f : ℚ → ℚ) (l : List ℚ) (j : ℕ) (h : j < l.length) :
    (l.map f).getD j 0 = f (l.getD j 0) := by
  rw [getD_eq_getElem _ _ _ (by simpa using h), getD_eq_getElem _ _ _ h,
    List.getElem_map]

theorem getD_reverse_of_lt (l : List ℚ) (j : ℕ) (h : j < l.length) :
    l.reverse.getD j 0 = l.getD (l.length - 1 - j) 0 := by
  rw [getD_eq_getElem _ _ _ (by simpa using h),
    getD_eq_getElem _ _ _ (by omega), List.getElem_reverse]

theorem argmaxIdx_lt_length {l : List ℚ} (h : l ≠ []) :
    argmaxIdx l < l.length := by
  induction l with
  | nil => simp at h
  | cons x t ih =>
    cases t with
    | nil => simp [argmaxIdx]
    | cons y rest =>
      simp only [argmaxIdx]
      split
      · have := ih (by simp)
        simpa using Nat.succ_lt_succ this
      · simp

theorem getD_le_getD_argmaxIdx {l : List ℚ} {j : ℕ} (hj : j < l.length) :
    l.getD j 0 ≤ l.getD (argmaxIdx l) 0 := by
  induction l generalizing j with
  | nil => simp at hj
  | cons x t ih =>
    cases t with
    | nil =>
      have : j = 0 := by simpa using hj
      subst this
      simp [argmaxIdx]
    | cons y rest =>
      simp only [argmaxIdx]
      split
      · rename_i hlt
        rw [List.getD_cons_succ]
        cases j with
        | zero => exact le_of_lt (by simpa using hlt)
        | succ k =>
          rw [List.getD_cons_succ]
          exact ih (by simpa using Nat.lt_of_succ_lt_succ hj)
      · rename_i hge
        push_neg at hge
        cases j with
        | zero => simp
        | succ k =>
          rw [List.getD_cons_succ, List.getD_cons_zero]
          exact le_trans (ih (by simpa using Nat.lt_of_succ_lt_succ hj)) hge

theorem getD_lt_of_lt_argmaxIdx {l : List ℚ} {j : ℕ} (hj : j < argmaxIdx l) :
    l.getD j 0 < l.getD (argmaxIdx l) 0 := by
  induction l generalizing j with
  | nil => simp [argmaxIdx] at hj
  | cons x t ih =>
    cases t with
    | nil => simp [argmaxIdx] at hj
    | cons y rest =>
      simp only [argmaxIdx] at hj ⊢
      split
      · rename_i hlt
        rw [List.getD_cons_succ]
        rw [if_pos hlt] at hj
        cases j with
        | zero => simpa using hlt
        | succ k =>
          rw [List.getD_cons_succ]
          exact ih (Nat.lt_of_succ_lt_succ hj)
      · rename_i hge
        rw [if_neg hge] at hj
        exact absurd hj (Nat.not_lt_zero j)

theorem qmod_nonneg {a p : ℚ} (hp : 0 < p) : 0 ≤ qmod a p := by
  have h1 : ((⌊a / p⌋ : ℤ) : ℚ) ≤ a / p := Int.floor_le _
  have h2 : p * ((⌊a / p⌋ : ℤ) : ℚ) ≤ p * (a / p) :=
    mul_le_mul_of_nonneg_left h1 (le_of_lt hp)
  have h3 : p * (a / p) = a := by
    field_simp
  unfold qmod
  linarith

theorem qmod_lt {a p : ℚ} (hp : 0 < p) : qmod a p < p := by
  have h1 : a / p < ((⌊a / p⌋ : ℤ) : ℚ) + 1 := Int.lt_floor_add_one _
  have h2 : p * (a / p) < p * (((⌊a / p⌋ : ℤ) : ℚ) + 1) :=
    (mul_lt_mul_left hp).mpr h1
  have h3 : p * (a / p) = a := by
    field_simp
  unfold qmod
  nlinarith

theorem linspace_length (a b : ℚ) (n : ℕ) : (linspace a b n).length = n := by
  rw [linspace, List.length_map, List.length_range]

theorem linspace_getD (a b : ℚ) (n : ℕ) (i : ℕ) (hi : i < n) :
    (linspace a b n).getD i 0 = a + (i : ℚ) * ((b - a) / ((n : ℚ) - 1)) := by
  rw [getD_eq_getElem _ _ _ (by simpa [linspace_length] using hi)]
  simp only [linspace, List.getElem_map, List.getElem_range]

theorem sorted_map_mul_nonneg {c : ℚ} (hc : 0 ≤ c) {l : List ℚ}
    (h : l.Sorted (· ≤ ·)) : (l.map (fun x => x * c)).Sorted (· ≤ ·) := by
  rw [List.Sorted, List.pairwise_map]
  exact h.imp (fun hab => mul_le_mul_of_nonneg_right hab hc)

theorem sorted_reverse_map_mul_nonpos {c : ℚ} (hc : c ≤ 0) {l : List ℚ}
    (h : l.Sorted (· ≤ ·)) :
    (l.reverse.map (fun x => x * c)).Sorted (· ≤ ·) := by
  rw [List.Sorted, List.pairwise_map, List.pairwise_reverse]
  exact h.imp (fun hab => mul_le_mul_of_nonpos_right hab hc)

theorem insertionSort_map_nonneg {c : ℚ} (hc : 0 ≤ c) (l : List ℚ) :
    (l.map (fun x => x * c)).insertionSort (· ≤ ·)
      = (l.insertionSort (· ≤ ·)).map (fun x => x * c) := by
  exact List.eq_of_perm_of_sorted
    ((List.perm_insertionSort _ _).trans
      ((List.perm_insertionSort _ l).symm.map _))
    (List.sorted_insertionSort _ _)
    (sorted_map_mul_nonneg hc (List.sorted_insertionSort _ l))

theorem insertionSort_map_nonpos {c : ℚ} (hc : c ≤ 0) (l : List ℚ) :
    (l.map (fun x => x * c)).insertionSort (· ≤ ·)
      = ((l.insertionSort (· ≤ ·)).reverse).map (fun x => x * c) := by
  exact List.eq_of_perm_of_sorted
    ((List.perm_insertionSort _ _).trans
      (((List.perm_insertionSort _ l).symm.trans
        (List.reverse_perm _).symm).map _))
    (List.sorted_insertionSort _ _)
    (sorted_reverse_map_mul_nonpos hc (List.sorted_insertionSort _ l))

theorem median_map_mul (c : ℚ) (l : List ℚ) :
    median (l.map (fun x => x * c)) = c * median l := by
  rcases Nat.eq_zero_or_pos l.length with h0 | hpos
  · have hnil : l = [] := List.length_eq_zero.mp h0
    subst hnil
    simp [median]
  · have hslen : (l.insertionSort (· ≤ ·)).length = l.length :=
      List.length_insertionSort _ _
    have hmaplen : (l.map (fun x => x * c)).length = l.length :=
      List.length_map _ _
    rcases le_or_lt 0 c with hc | hc
    · simp only [median, insertionSort_map_nonneg hc, hmaplen]
      by_cases hodd : l.length % 2 = 1
      · rw [if_pos hodd, if_pos hodd,
          getD_map_of_lt _ _ _ (by omega : l.length / 2
            < (l.insertionSort (· ≤ ·)).length)]
        ring
      · rw [if_neg hodd, if_neg hodd,
          getD_map_of_lt _ _ _ (by omega : l.length / 2 - 1
            < (l.insertionSort (· ≤ ·)).length),
          getD_map_of_lt _ _ _ (by omega : l.length / 2
            < (l.insertionSort (· ≤ ·)).length)]
        ring
    · simp only [median, insertionSort_map_nonpos (le_of_lt hc), hmaplen]
      by_cases hodd : l.length % 2 = 1
      · rw [if_pos hodd, if_pos hodd,
          getD_map_of_lt _ _ _ (by simpa using
            (by omega : l.length / 2 < (l.insertionSort (· ≤ ·)).length)),
          getD_reverse_of_lt _ _ (by omega : l.length / 2
            < (l.insertionSort (· ≤ ·)).length), hslen]
        have hidx : l.length - 1 - l.length / 2 = l.length / 2 := by omega
        rw [hidx]
        ring
      · rw [if_neg hodd, if_neg hodd,
          getD_map_of_lt _ _ _ (by simpa using
            (by omega : l.length / 2 - 1 < (l.insertionSort (· ≤ ·)).length)),
          getD_map_of_lt _ _ _ (by simpa using
            (by omega : l.length / 2 < (l.insertionSort (· ≤ ·)).length)),
          getD_reverse_of_lt _ _ (by omega : l.length / 2 - 1
            < (l.insertionSort (· ≤ ·)).length),
          getD_reverse_of_lt _ _ (by omega : l.length / 2
            < (l.insertionSort (· ≤ ·)).length), hslen]
        have hidx1 : l.length - 1 - (l.length / 2 - 1) = l.length / 2 := by
          omega
        have hidx2 : l.length - 1 - l.length / 2 = l.length / 2 - 1 := by
          omega
        rw [hidx1, hidx2]
        ring

theorem range_min_getD_map {α H : Type} [Inhabited H] (f : H → α) (k : ℕ)
    (res : List H) :
    (List.range (min k res.length)).map (fun i => f (res.getD i default))
      = (res.take k).map f := by
  induction res generalizing k with
  | nil => simp
  | cons h t ih =>
    cases k with
    | zero => simp
    | succ m =>
      have hmin : min (m + 1) (h :: t).length = (min m t.length) + 1 := by
        simp only [List.length_cons]
        omega
      rw [hmin, List.range_succ_eq_map, List.map_cons, List.map_map,
        List.take_succ_cons, List.map_cons, List.getD_cons_zero]
      have hfun : ((fun i : ℕ => f ((h :: t).getD i default)) ∘ Nat.succ)
          = (fun i : ℕ => f (t.getD i default)) := by
        funext i
        simp [Function.comp, List.getD_cons_succ]
      rw [hfun, ih]

theorem median_map_div (m : ℚ) (l : List ℚ) :
    median (l.map (fun f => f / m)) = median l / m := by
  have hfun : (fun f : ℚ => f / m) = (fun f : ℚ => f * m⁻¹) := by
    funext x
    rw [div_eq_mul_inv]
  rw [hfun, median_map_mul, div_eq_mul_inv, mul_comm]

/-! ## Claim theorems -/

/-- Claim C3, counterexample: at `t = 1`, `t0 = 0`, `period = 2` the
phase-fold value is `-1 = -period/2`, which does not lie in the claimed
half-open interval `(-period/2, period/2]`. -/
theorem fold_range_cex :
    fold 1 0 2 = -(2/2) ∧ ¬(-(2/2) < fold 1 0 2 ∧ fold 1 0 2 ≤ 2/2) := by
  norm_num [fold, qmod]

/-- Claim C3, amended: for every timestamp `t`, every `t0` and every
`period > 0`, the phase-fold value computed by `validate_transits` lies in
the half-open interval `[-period/2, period/2)` (closed on the left, open
on the right, since numpy's `%` returns a remainder in `[0, period)`). -/
theorem fold_range (t t0 p : ℚ) (hp : 0 < p) :
    -(p/2) ≤ fold t t0 p ∧ fold t t0 p < p/2 := by
  have h1 : 0 ≤ qmod (t - t0 + 1/2 * p) p := qmod_nonneg hp
  have h2 : qmod (t - t0 + 1/2 * p) p < p := qmod_lt hp
  unfold fold
  constructor
  · linarith
  · linarith

/-- Claim C3 witness: the amended range invariant at `t = 1`, `t0 = 0`,
`period = 2`. -/
theorem fold_range_witness :
    (0 : ℚ) < 2 ∧ (-(2/2) ≤ fold 1 0 2 ∧ fold 1 0 2 < 2/2) :=
  ⟨by norm_num, fold_range 1 0 2 (by norm_num)⟩

/-- Claim C5: the phase-fold mapping of `validate_transits` is periodic:
for every `t`, `t0` and `period > 0`, folding `t` and folding
`t + period` give the same value. -/
theorem fold_periodic (t t0 p : ℚ) (hp : 0 < p) :
    fold (t + p) t0 p = fold t t0 p := by
  have hp' : p ≠ 0 := ne_of_gt hp
  have h1 : (t + p - t0 + 1/2 * p) / p = (t - t0 + 1/2 * p) / p + 1 := by
    field_simp
    ring
  unfold fold qmod
  rw [h1, Int.floor_add_one]
  push_cast
  ring

/-- Claim C5 witness: periodicity at `t = 1`, `t0 = 0`, `period = 2`. -/
theorem fold_periodic_witness :
    (0 : ℚ) < 2 ∧ fold (1 + 2) 0 2 = fold 1 0 2 :=
  ⟨by norm_num, fold_periodic 1 0 2 (by norm_num)⟩

/-- Claim C4: for every light curve with nonempty flux of nonzero median,
`preprocess_lightcurve` returns a flux sequence whose median is exactly 1
and a time sequence of the same length as the input time sequence. -/
theorem preprocess_lightcurve_unit_median (time flux : List ℚ)
    (hne : flux ≠ []) (hm : median flux ≠ 0) :
    median (preprocess_lightcurve time flux).2 = 1 ∧
    (preprocess_lightcurve time flux).1.length = time.length := by
  constructor
  · show median (flux.map fun f => f / median flux) = 1
    rw [median_map_div, div_self hm]
  · rfl

/-- Claim C4 witness: unit median and preserved time length on the
concrete light curve `([0, 1, 2], [2, 4, 6])`. -/
theorem preprocess_lightcurve_unit_median_witness :
    (([2, 4, 6] : List ℚ) ≠ [] ∧ median [2, 4, 6] ≠ 0) ∧
    (median (preprocess_lightcurve [0, 1, 2] [2, 4, 6]).2 = 1 ∧
      (preprocess_lightcurve [0, 1, 2] [2, 4, 6]).1.length
        = ([0, 1, 2] : List ℚ).length) :=
  ⟨⟨by decide, by decide⟩,
    preprocess_lightcurve_unit_median [0, 1, 2] [2, 4, 6]
      (by decide) (by decide)⟩

/-- Claim C6: `preprocess_lightcurve` is idempotent: applying it to its
own output returns that output unchanged (exactly, in rational
arithmetic). -/
theorem preprocess_lightcurve_idempotent (time flux : List ℚ)
    (hne : flux ≠ []) (hm : median flux ≠ 0) :
    preprocess_lightcurve (preprocess_lightcurve time flux).1
        (preprocess_lightcurve time flux).2
      = preprocess_lightcurve time flux := by
  have hmed : median (flux.map fun f => f / median flux) = 1 := by
    rw [median_map_div, div_self hm]
  show (time, (flux.map fun f => f / median flux).map
      (fun f => f / median (flux.map fun f => f / median flux)))
    = (time, flux.map fun f => f / median flux)
  rw [hmed]
  simp [div_one]

/-- Claim C6 witness: idempotence on the concrete light curve
`([0, 1, 2], [2, 4, 6])`. -/
theorem preprocess_lightcurve_idempotent_witness :
    (([2, 4, 6] : List ℚ) ≠ [] ∧ median [2, 4, 6] ≠ 0) ∧
    preprocess_lightcurve (preprocess_lightcurve [0, 1, 2] [2, 4, 6]).1
        (preprocess_lightcurve [0, 1, 2] [2, 4, 6]).2
      = preprocess_lightcurve [0, 1, 2] [2, 4, 6] :=
  ⟨⟨by decide, by decide⟩,
    preprocess_lightcurve_idempotent [0, 1, 2] [2, 4, 6]
      (by decide) (by decide)⟩

/-- Claim C10: `preprocess_lightcurve` returns the time sequence it was
given completely unchanged; only the flux component is rescaled (divided
elementwise by its median). -/
theorem preprocess_lightcurve_time_unchanged (time flux : List ℚ) :
    (preprocess_lightcurve time flux).1 = time ∧
    (preprocess_lightcurve time flux).2
      = flux.map (fun f => f / median flux) :=
  ⟨rfl, rfl⟩

/-- Claim C7: `load_lightcurve` downloads at most 20 segments, taking
them from the search result in its listed order starting at index 0, and
when the search returns fewer than 20 segments it downloads exactly all
of them. -/
theorem lc_combined_cap {H : Type} [Inhabited H]
    (download : H → RawSegment) (res : List H) :
    (lc_combined download res).length = min 20 res.length ∧
    (lc_combined download res).length ≤ 20 ∧
    lc_combined download res = (res.take 20).map (segmentPipeline download) ∧
    (res.length < 20 →
      lc_combined download res = res.map (segmentPipeline download)) := by
  have heq : lc_combined download res
      = (res.take 20).map (segmentPipeline download) := by
    unfold lc_combined
    exact range_min_getD_map _ 20 res
  refine ⟨?_, ?_, heq, ?_⟩
  · unfold lc_combined
    rw [List.length_map, List.length_range]
  · unfold lc_combined
    rw [List.length_map, List.length_range]
    omega
  · intro hlt
    rw [heq, List.take_of_length_le (le_of_lt hlt)]

/-- Claim C7 witness: a search result with 2 segments is downloaded in
full, in order. -/
theorem lc_combined_cap_witness :
    (([(), ()] : List Unit).length < 20) ∧
    lc_combined (fun _ : Unit => ([] : RawSegment)) [(), ()]
      = ([(), ()] : List Unit).map
          (segmentPipeline (fun _ => ([] : RawSegment))) :=
  ⟨by decide,
    (lc_combined_cap (fun _ : Unit => ([] : RawSegment)) [(), ()]).2.2.2
      (by decide)⟩

/-- Claim C8, counterexample: on an empty archive search result
`load_lightcurve` does not raise an empty-result-set error before
stitching; it proceeds to hand the empty collection to the stitcher
(instantiated here with the identity stitcher, which therefore receives
and returns the empty collection). -/
theorem load_lightcurve_empty_cex :
    load_lightcurve (fun c => c) (fun _ : Unit => ([] : RawSegment))
      ([] : List Unit) = ([] : List Segment) := rfl

/-- Claim C8, amended: when the archive search returns zero segments,
`load_lightcurve` performs no downloads and proceeds to the stitching
step, applying the external stitcher to the empty collection; the source
contains no empty-result check and raises no error of its own before
stitching. -/
theorem load_lightcurve_empty_proceeds_to_stitch {H α : Type}
    [Inhabited H] (stitch : List Segment → α) (download : H → RawSegment) :
    lc_combined download ([] : List H) = [] ∧
    load_lightcurve stitch download ([] : List H) = stitch [] :=
  ⟨rfl, rfl⟩

/-- Claim C2, counterexample: in the `__main__` block the call to
`preprocess_lightcurve` is commented out, so the series handed to the
detector is the loader's output itself, which differs from the
preprocessor's output on the concrete loaded curve
`([0, 1, 2], [2, 4, 6])` (whose flux median is 4, not 1). -/
theorem main_block_preprocess_skipped_cex :
    (main_block sampleEngine ([0, 1, 2], [2, 4, 6])).detector_input
      ≠ preprocess_lightcurve [0, 1, 2] [2, 4, 6] := by
  have hpre : preprocess_lightcurve [0, 1, 2] [2, 4, 6]
      = ([0, 1, 2], [1/2, 1, 3/2]) := by
    norm_num [preprocess_lightcurve, median, List.insertionSort,
      List.orderedInsert]
  intro hcontra
  have hpair : (([0, 1, 2], [2, 4, 6]) : List ℚ × List ℚ)
      = ([0, 1, 2], [1/2, 1, 3/2]) := by
    rw [← hpre]
    exact hcontra
  have hflux : ([2, 4, 6] : List ℚ) = [1/2, 1, 3/2] :=
    congrArg Prod.snd hpair
  norm_num at hflux

/-- Claim C2, amended: the entry point executes three stages strictly in
sequence — load, then detect, then validate — each consuming the previous
stage's output; the preprocess invocation is commented out, so the
(time, flux) series passed to the detector is the loader's output
unchanged, and the validator receives that same series together with the
detector's candidate. -/
theorem main_block_dataflow (bls : Engine) (loaded : List ℚ × List ℚ) :
    (main_block bls loaded).detector_input = loaded ∧
    (main_block bls loaded).candidate
      = detect_transits bls loaded.1 loaded.2 ∧
    (main_block bls loaded).validate_output
      = validate_transits loaded.1 loaded.2
          (main_block bls loaded).candidate.1
          (main_block bls loaded).candidate.2.1 :=
  ⟨rfl, rfl, rfl⟩

/-- Claim C1: `detect_transits` builds a period grid of 30000 evenly
spaced values over the inclusive range [0.5, 20] days and an evenly
spaced duration grid, and for every input (time, flux) series (and every
engine returning a wellformed surface) returns the
(period, transit_time, duration) taken at the grid index whose power is
maximal over the whole result surface, together with the full surface. -/
theorem detect_transits_grid_and_argmax (bls : Engine) (time flux : List ℚ)
    (h : (bls_surface bls time flux).WF) :
    (linspace (1/2) 20 30000).length = 30000 ∧
    (linspace (1/2) 20 30000).getD 0 0 = 1/2 ∧
    (linspace (1/2) 20 30000).getD 29999 0 = 20 ∧
    (∀ i : ℕ, i + 1 < 30000 →
      (linspace (1/2) 20 30000).getD (i + 1) 0
        - (linspace (1/2) 20 30000).getD i 0 = (20 - 1/2) / 29999) ∧
    (∀ i : ℕ, i + 1 < 25 →
      (linspace (1/20) (3/10) 25).getD (i + 1) 0
        - (linspace (1/20) (3/10) 25).getD i 0 = (3/10 - 1/20) / 24) ∧
    detect_transits bls time flux
      = ((bls_surface bls time flux).period.getD
            (argmaxIdx (bls_surface bls time flux).power) 0,
          (bls_surface bls time flux).transit_time.getD
            (argmaxIdx (bls_surface bls time flux).power) 0,
          (bls_surface bls time flux).duration.getD
            (argmaxIdx (bls_surface bls time flux).power) 0,
          bls_surface bls time flux) ∧
    argmaxIdx (bls_surface bls time flux).power
      < (bls_surface bls time flux).power.length ∧
    ∀ j : ℕ, j < (bls_surface bls time flux).power.length →
      (bls_surface bls time flux).power.getD j 0
        ≤ (bls_surface bls time flux).power.getD
            (argmaxIdx (bls_surface bls time flux).power) 0 := by
  refine ⟨linspace_length _ _ _, ?_, ?_, ?_, ?_, rfl,
    argmaxIdx_lt_length h.1, fun j hj => getD_le_getD_argmaxIdx hj⟩
  · rw [linspace_getD _ _ _ 0 (by norm_num)]
    norm_num
  · rw [linspace_getD _ _ _ 29999 (by norm_num)]
    norm_num
  · intro i hi
    rw [linspace_getD _ _ _ (i + 1) hi, linspace_getD _ _ _ i (by omega)]
    push_cast
    ring
  · intro i hi
    rw [linspace_getD _ _ _ (i + 1) hi, linspace_getD _ _ _ i (by omega)]
    push_cast
    ring

/-- Claim C1 witness: the grid and argmax-selection facts instantiated at
the concrete wellformed engine `sampleEngine` and the empty series. -/
theorem detect_transits_grid_and_argmax_witness :
    (bls_surface sampleEngine [] []).WF ∧
    ((linspace (1/2) 20 30000).length = 30000 ∧
    (linspace (1/2) 20 30000).getD 0 0 = 1/2 ∧
    (linspace (1/2) 20 30000).getD 29999 0 = 20 ∧
    (∀ i : ℕ, i + 1 < 30000 →
      (linspace (1/2) 20 30000).getD (i + 1) 0
        - (linspace (1/2) 20 30000).getD i 0 = (20 - 1/2) / 29999) ∧
    (∀ i : ℕ, i + 1 < 25 →
      (linspace (1/20) (3/10) 25).getD (i + 1) 0
        - (linspace (1/20) (3/10) 25).getD i 0 = (3/10 - 1/20) / 24) ∧
    detect_transits sampleEngine [] []
      = ((bls_surface sampleEngine [] []).period.getD
            (argmaxIdx (bls_surface sampleEngine [] []).power) 0,
          (bls_surface sampleEngine [] []).transit_time.getD
            (argmaxIdx (bls_surface sampleEngine [] []).power) 0,
          (bls_surface sampleEngine [] []).duration.getD
            (argmaxIdx (bls_surface sampleEngine [] []).power) 0,
          bls_surface sampleEngine [] []) ∧
    argmaxIdx (bls_surface sampleEngine [] []).power
      < (bls_surface sampleEngine [] []).power.length ∧
    ∀ j : ℕ, j < (bls_surface sampleEngine [] []).power.length →
      (bls_surface sampleEngine [] []).power.getD j 0
        ≤ (bls_surface sampleEngine [] []).power.getD
            (argmaxIdx (bls_surface sampleEngine [] []).power) 0) :=
  ⟨by decide, detect_transits_grid_and_argmax sampleEngine [] [] (by decide)⟩

/-- Claim C9: when several grid points share the maximal power value,
`detect_transits` returns the candidate at the smallest such index: the
tuple is taken at `argmaxIdx` of the power surface, which is at most
every index attaining the maximal power value (numpy's argmax returns the
first occurrence of the maximum). -/
theorem detect_transits_tie_first (bls : Engine) (time flux : List ℚ)
    (h : (bls_surface bls time flux).WF) :
    detect_transits bls time flux
      = ((bls_surface bls time flux).period.getD
            (argmaxIdx (bls_surface bls time flux).power) 0,
          (bls_surface bls time flux).transit_time.getD
            (argmaxIdx (bls_surface bls time flux).power) 0,
          (bls_surface bls time flux).duration.getD
            (argmaxIdx (bls_surface bls time flux).power) 0,
          bls_surface bls time flux) ∧
    ∀ j : ℕ, j < (bls_surface bls time flux).power.length →
      (bls_surface bls time flux).power.getD j 0
        = (bls_surface bls time flux).power.getD
            (argmaxIdx (bls_surface bls time flux).power) 0 →
      argmaxIdx (bls_surface bls time flux).power ≤ j := by
  refine ⟨rfl, fun j hj heq => ?_⟩
  by_contra hlt
  push_neg at hlt
  have hstrict := getD_lt_of_lt_argmaxIdx hlt
  rw [heq] at hstrict
  exact lt_irrefl _ hstrict

/-- Claim C9 witness: first-occurrence tie-breaking instantiated at the
concrete engine `tieEngine`, whose power surface [2, 5, 5] attains its
maximum at indices 1 and 2. -/
theorem detect_transits_tie_first_witness :
    (bls_surface tieEngine [] []).WF ∧
    (detect_transits tieEngine [] []
      = ((bls_surface tieEngine [] []).period.getD
            (argmaxIdx (bls_surface tieEngine [] []).power) 0,
          (bls_surface tieEngine [] []).transit_time.getD
            (argmaxIdx (bls_surface tieEngine [] []).power) 0,
          (bls_surface tieEngine [] []).duration.getD
            (argmaxIdx (bls_surface tieEngine [] []).power) 0,
          bls_surface tieEngine [] []) ∧
    ∀ j : ℕ, j < (bls_surface tieEngine [] []).power.length →
      (bls_surface tieEngine [] []).power.getD j 0
        = (bls_surface tieEngine [] []).power.getD
            (argmaxIdx (bls_surface tieEngine [] []).power) 0 →
      argmaxIdx (bls_surface tieEngine [] []).power ≤ j) :=
  ⟨by decide, detect_transits_tie_first tieEngine [] [] (by decide)⟩

end Kepler10
